import Mathlib

/-!
Verification of the single-neuron CIFAR-10 notebook (`02_theano_perceptron.ipynb`).

The notebook's code is shallowly embedded here:
  * pixel values are modelled as rationals (the code uses float32 arrays);
  * numpy boolean-mask selection is `maskFilter`;
  * Python's `tuple.index` / `list.index`, which raises `ValueError` when the
    element is absent, is `tupleIndex` returning `Except`;
  * numpy's `.max()`, which raises on a zero-size array, is `npMax`;
  * images are kept as flat lists (the notebook's reshape to
    `height*width*channels` is a pure flattening of each row);
  * the real-valued model, loss and training loop are embedded over `ℝ`,
    with the Keras gradient engine treated as an opaque provider.
-/

namespace Perceptron

/-- The fixed CIFAR-10 class vocabulary, exactly as in the notebook:
`allowed = ("airplane", "automobile", "bird", "cat", "deer", "dog", "frog", "horse", "ship", "truck")`. -/
def allowed : List String :=
  ["airplane", "automobile", "bird", "cat", "deer", "dog", "frog", "horse", "ship", "truck"]

/-- Python's `seq.index(x)`: index of the first occurrence, `ValueError` if absent. -/
def tupleIndex {α : Type} [DecidableEq α] : List α → α → Except String Nat
  | [], _ => .error "ValueError: x not in tuple"
  | a :: l, x => if a = x then .ok 0 else (tupleIndex l x).map (· + 1)

/-- A Python list comprehension over a fallible body: the first raised
exception propagates. -/
def mapExcept {α β : Type} (f : α → Except String β) : List α → Except String (List β)
  | [] => .ok []
  | a :: l =>
    match f a with
    | .error e => .error e
    | .ok b =>
      match mapExcept f l with
      | .error e => .error e
      | .ok bs => .ok (b :: bs)

/-- numpy boolean-mask selection `xs[mask]`: keep the entries of `xs` whose
mask entry is `true`. -/
def maskFilter {α : Type} (mask : List Bool) (xs : List α) : List α :=
  (mask.zip xs).filterMap (fun p => if p.1 then some p.2 else none)

/-- numpy `.max()` over a 2-D array (here: a flattened list of all entries);
raises `ValueError` on a zero-size array. -/
def npMax : List ℚ → Except String ℚ
  | [] => .error "ValueError: zero-size array to reduction operation maximum"
  | x :: xs => .ok (xs.foldl max x)

/-- `s.index(y)` cast to a float label (the `np.float32([s.index(y[0]) ...])`
body of the notebook); raises `ValueError` when `y` is not in `s`. -/
def classPosition (s : List Nat) (y : Nat) : Except String ℚ :=
  (tupleIndex s y).map fun i => (i : ℚ)

/-- One split of the dataset: the feature rows and the original labels
(`y[0]` of each label array, an integer in 0..9 for genuine CIFAR data). -/
abbrev RawSplit := List (List ℚ) × List Nat

/-- `cifar10.load_data()` shape: `((X_train, Y_train), (X_val, Y_val))`. -/
abbrev RawDataset := RawSplit × RawSplit

/-- A returned split: normalized feature rows and float binary labels. -/
abbrev OutSplit := List (List ℚ) × List ℚ

/-- The notebook's `select_classes_from_cifar10(dataset, classes)`:

```
allowed = ("airplane", ..., "truck")
if any([not cl in classes for cl in classes]) or not len(classes) > 1:
    raise ValueError("Please check your class arguments")
(X_train, Y_train), (X_val, Y_val) = dataset
c_idx = [allowed.index(c) for c in classes]
idx_train = np.array([True if y[0] in c_idx else False for y in Y_train])
idx_val = np.array([True if y[0] in c_idx else False for y in Y_val])
X_train = np.float32(X_train[idx_train]); X_train = reshape to (n, h*w*c)
X_val = np.float32(X_val[idx_val]); X_val = reshape to (n, h*w*c)
s = sorted(c_idx)
Y_train = np.float32([s.index(y[0]) for y in Y_train[idx_train]])
Y_val = np.float32([s.index(y[0]) for y in Y_val[idx_val]])
return (X_train/X_train.max(), Y_train), (X_val/X_train.max(), Y_val)
```

Note the guard tests `cl in classes` (not `cl in allowed`), which is the
literal condition in the source; an unknown class name instead raises at
`allowed.index(c)`. -/
def select_classes_from_cifar10 (dataset : RawDataset) (classes : List String) :
    Except String (OutSplit × OutSplit) :=
  if (classes.any fun cl => !(decide (cl ∈ classes))) || !(decide (classes.length > 1)) then
    .error "ValueError: Please check your class arguments"
  else
    Except.bind (mapExcept (tupleIndex allowed) classes) fun c_idx =>
    let idx_train := dataset.1.2.map (fun y => decide (y ∈ c_idx))
    let idx_val := dataset.2.2.map (fun y => decide (y ∈ c_idx))
    let X_train := maskFilter idx_train dataset.1.1
    let X_val := maskFilter idx_val dataset.2.1
    let s := List.insertionSort (· ≤ ·) c_idx
    Except.bind (mapExcept (classPosition s)
        (maskFilter idx_train dataset.1.2)) fun Y_train =>
    Except.bind (mapExcept (classPosition s)
        (maskFilter idx_val dataset.2.2)) fun Y_val =>
    Except.bind (npMax X_train.flatten) fun m =>
    .ok ((X_train.map (fun row => row.map (· / m)), Y_train),
         (X_val.map (fun row => row.map (· / m)), Y_val))

/-! ### Specification-side descriptions of the filter (from the spec's words)

These definitions restate, in direct `List.filter`/`List.map` terms, what the
spec claims the filter produces; the theorems below compare them with
`select_classes_from_cifar10` itself. -/

/-- The rows of `X` whose paired label is one of the two selected class
indices, in order. -/
def keptRows (X : List (List ℚ)) (Y : List Nat) (i1 i2 : Nat) : List (List ℚ) :=
  ((X.zip Y).filter fun q => decide (q.2 = i1) || decide (q.2 = i2)).map Prod.fst

/-- The labels of `Y` that are one of the two selected class indices. -/
def keptLabels (Y : List Nat) (i1 i2 : Nat) : List Nat :=
  Y.filter fun y => decide (y = i1) || decide (y = i2)

/-- The kept labels remapped to `{0,1}`: the smaller class index goes to `0`,
the larger to `1`. -/
def relabeled (Y : List Nat) (i1 i2 : Nat) : List ℚ :=
  (keptLabels Y i1 i2).map fun y => if y = min i1 i2 then (0 : ℚ) else 1

/-- Divide every entry of every row by the scalar `m`. -/
def scaleBy (m : ℚ) (X : List (List ℚ)) : List (List ℚ) :=
  X.map fun row => row.map (· / m)

/-! ### The model, the loss and the training loop

The Theano/Keras expressions of the notebook are embedded over `ℝ`
(the code computes with float32):

```
y = K.sigmoid(K.dot(x, w) + b)
loss = K.mean(K.binary_crossentropy(output=y, target=target))
compute_loss = K.function(inputs=[x, target], outputs=[loss])
grads = K.gradients(loss=loss, variables=[w, b])
lr = K.variable(0.1)
updates = [[w, w - lr * grads[0]], [b, b - lr * grads[1]]]
train = K.function(inputs=[x, target], outputs=[loss], updates=updates)
```

`K.gradients` is the framework's automatic differentiation; it is treated as
an opaque external provider `G` of a gradient vector and a gradient scalar. -/

/-- `K.dot(x, w)` for a single flattened example. -/
def dotProduct (x w : List ℝ) : ℝ :=
  ((x.zip w).map fun p => p.1 * p.2).sum

/-- `K.sigmoid`: the logistic function `1 / (1 + exp (-z))`. -/
noncomputable def sigmoid (z : ℝ) : ℝ := 1 / (1 + Real.exp (-z))

/-- The model output `y = K.sigmoid(K.dot(x, w) + b)` on one example. -/
noncomputable def modelOutput (x w : List ℝ) (b : ℝ) : ℝ :=
  sigmoid (dotProduct x w + b)

/-- `K.binary_crossentropy(output, target)` for one example:
`-(t*log(p) + (1-t)*log(1-p))`. -/
noncomputable def binary_crossentropy (output target : ℝ) : ℝ :=
  -(target * Real.log output + (1 - target) * Real.log (1 - output))

/-- `K.mean` of a batch of scalars. -/
noncomputable def kMean (l : List ℝ) : ℝ := l.sum / l.length

/-- The batch loss `K.mean(K.binary_crossentropy(output=y, target=target))`,
as a function of the per-example predictions and the targets. -/
noncomputable def lossBCE (preds targets : List ℝ) : ℝ :=
  kMean ((preds.zip targets).map fun p => binary_crossentropy p.1 p.2)

/-- The learnable state of the neuron: the weight vector `w` and the bias `b`
(`K.variable`s in the notebook). -/
structure Params where
  w : List ℝ
  b : ℝ

/-- A gradient as returned by `K.gradients(loss, [w, b])`: one vector for `w`,
one scalar for `b`. -/
structure Grads where
  gw : List ℝ
  gb : ℝ

/-- A batch fed to a compiled function: feature rows and targets. -/
structure Batch where
  X : List (List ℝ)
  Y : List ℝ

/-- An opaque gradient provider standing for `K.gradients`: from the current
parameters and the batch it yields `[∂loss/∂w, ∂loss/∂b]`. -/
abbrev GradProvider := Params → Batch → Grads

/-- The loss expression evaluated at parameters `p` on a batch. -/
noncomputable def lossAt (p : Params) (batch : Batch) : ℝ :=
  lossBCE (batch.X.map fun row => modelOutput row p.w p.b) batch.Y

/-- The update expressions `[[w, w - lr * grads[0]], [b, b - lr * grads[1]]]`
applied simultaneously, as Keras applies a `updates` list. -/
def applyUpdates (lr : ℝ) (g : Grads) (p : Params) : Params :=
  { w := p.w.zipWith (fun wi gi => wi - lr * gi) g.gw
    b := p.b - lr * g.gb }

/-- A compiled Keras function `K.function(inputs, outputs=[loss], updates=u)`:
it returns the loss at the current parameters and the parameters after the
(optional) update list has been applied. -/
noncomputable def kFunction (out : Params → Batch → ℝ)
    (upd : Option (Params → Batch → Params)) (p : Params) (batch : Batch) :
    Params × ℝ :=
  (((upd.getD fun q _ => q) p batch), out p batch)

/-- `compute_loss = K.function(inputs=[x, target], outputs=[loss])`. -/
noncomputable def compute_loss (p : Params) (batch : Batch) : Params × ℝ :=
  kFunction lossAt none p batch

/-- `train = K.function(inputs=[x, target], outputs=[loss], updates=updates)`,
for a gradient provider `G` and learning rate `lr`. -/
noncomputable def trainStep (G : GradProvider) (lr : ℝ) (p : Params)
    (batch : Batch) : Params × ℝ :=
  kFunction lossAt (some fun q bt => applyUpdates lr (G q bt) q) p batch

/-- The mutable state of the training script: the parameters plus the two
loss-history lists. -/
structure TrainState where
  params : Params
  train_loss_history : List ℝ
  val_loss_history : List ℝ

/-- One epoch of the training loop:

```
loss_train = train([X_train, Y_train])[0]
train_loss_history.append(loss_train)
loss_val = compute_loss([X_val, Y_val])[0]
val_loss_history.append(loss_val)
```
(the plotting code reads but never writes the histories). -/
noncomputable def epochStep (G : GradProvider) (lr : ℝ)
    (trainBatch valBatch : Batch) (st : TrainState) : TrainState :=
  let tr := trainStep G lr st.params trainBatch
  let vl := compute_loss tr.1 valBatch
  { params := vl.1
    train_loss_history := st.train_loss_history ++ [tr.2]
    val_loss_history := st.val_loss_history ++ [vl.2] }

/-- `for epoch in range(nb_epochs): ...` — the loop runs the epoch body
exactly `n` times and then stops. -/
noncomputable def trainingLoop (G : GradProvider) (lr : ℝ)
    (trainBatch valBatch : Batch) : Nat → TrainState → TrainState
  | 0, st => st
  | n + 1, st => trainingLoop G lr trainBatch valBatch n
      (epochStep G lr trainBatch valBatch st)

/-- The state right before the loop: fresh parameters, empty histories. -/
def initialState (p : Params) : TrainState :=
  { params := p, train_loss_history := [], val_loss_history := [] }

/-! ### Basic lemmas about the embedded primitives -/

lemma except_bind_ok {α β : Type} (a : α) (f : α → Except String β) :
    Except.bind (Except.ok a) f = f a := rfl

lemma except_bind_error {α β : Type} (e : String) (f : α → Except String β) :
    Except.bind (Except.error e : Except String α) f = Except.error e := rfl

lemma tupleIndex_lt_length {α : Type} [DecidableEq α] {l : List α} {x : α} {i : Nat}
    (h : tupleIndex l x = .ok i) : i < l.length := by
  induction l generalizing i with
  | nil => simp [tupleIndex] at h
  | cons a l ih =>
    by_cases hax : a = x
    · simp only [tupleIndex, if_pos hax] at h
      cases h
      simp
    · simp only [tupleIndex, if_neg hax] at h
      cases hj : tupleIndex l x with
      | error e => rw [hj] at h; simp [Except.map] at h
      | ok j =>
        rw [hj] at h
        simp only [Except.map] at h
        cases h
        have := ih hj
        simp only [List.length_cons]
        omega

lemma tupleIndex_getD {α : Type} [DecidableEq α] {l : List α} {x : α} {i : Nat}
    (h : tupleIndex l x = .ok i) (d : α) : l.getD i d = x := by
  induction l generalizing i with
  | nil => simp [tupleIndex] at h
  | cons a l ih =>
    by_cases hax : a = x
    · simp [tupleIndex, hax] at h
      subst h
      simpa using hax
    · simp only [tupleIndex, if_neg hax] at h
      cases hj : tupleIndex l x with
      | error e => rw [hj] at h; simp [Except.map] at h
      | ok j =>
        rw [hj] at h
        simp [Except.map] at h
        subst h
        simpa using ih hj

lemma tupleIndex_inj {α : Type} [DecidableEq α] {l : List α} {x y : α} {i : Nat}
    (hx : tupleIndex l x = .ok i) (hy : tupleIndex l y = .ok i) : x = y := by
  have h1 := tupleIndex_getD hx x
  have h2 := tupleIndex_getD hy x
  rw [h1] at h2
  exact h2

lemma tupleIndex_ok_of_mem {α : Type} [DecidableEq α] {l : List α} {x : α}
    (h : x ∈ l) : ∃ i, tupleIndex l x = .ok i := by
  induction l with
  | nil => simp at h
  | cons a l ih =>
    by_cases hax : a = x
    · exact ⟨0, by simp [tupleIndex, hax]⟩
    · have hx : x ∈ l := by
        rcases List.mem_cons.mp h with h1 | h1
        · exact absurd h1.symm hax
        · exact h1
      obtain ⟨i, hi⟩ := ih hx
      exact ⟨i + 1, by simp [tupleIndex, if_neg hax, hi, Except.map]⟩

lemma tupleIndex_error_of_not_mem {α : Type} [DecidableEq α] {l : List α} {x : α}
    (h : x ∉ l) : tupleIndex l x = .error "ValueError: x not in tuple" := by
  induction l with
  | nil => rfl
  | cons a l ih =>
    have hax : a ≠ x := fun he => h (he ▸ List.mem_cons_self a l)
    have hx : x ∉ l := fun hm => h (List.mem_cons_of_mem a hm)
    simp [tupleIndex, if_neg hax, ih hx, Except.map]

lemma tupleIndex_head {α : Type} [DecidableEq α] (a : α) (l : List α) :
    tupleIndex (a :: l) a = .ok 0 := by
  simp [tupleIndex]

lemma tupleIndex_pair_snd {α : Type} [DecidableEq α] {a b : α} (h : a ≠ b) :
    tupleIndex [a, b] b = .ok 1 := by
  simp [tupleIndex, if_neg h, Except.map]

lemma mapExcept_eq_ok {α β : Type} {f : α → Except String β} {g : α → β}
    {l : List α} (h : ∀ a ∈ l, f a = .ok (g a)) :
    mapExcept f l = .ok (l.map g) := by
  induction l with
  | nil => rfl
  | cons a l ih =>
    have ha := h a (List.mem_cons_self a l)
    have hl := ih fun x hx => h x (List.mem_cons_of_mem a hx)
    simp [mapExcept, ha, hl]

lemma mapExcept_ok_exists {α β : Type} {f : α → Except String β} {l : List α}
    (h : ∀ a ∈ l, ∃ b, f a = .ok b) : ∃ bs, mapExcept f l = .ok bs := by
  induction l with
  | nil => exact ⟨[], rfl⟩
  | cons a l ih =>
    obtain ⟨b, hb⟩ := h a (List.mem_cons_self a l)
    obtain ⟨bs, hbs⟩ := ih fun x hx => h x (List.mem_cons_of_mem a hx)
    exact ⟨b :: bs, by simp [mapExcept, hb, hbs]⟩

lemma mapExcept_error_of_mem {α β : Type} {f : α → Except String β} {l : List α}
    {x : α} {e : String} (hx : x ∈ l) (he : f x = .error e) :
    ∃ e2, mapExcept f l = .error e2 := by
  induction l with
  | nil => simp at hx
  | cons a l ih =>
    cases ha : f a with
    | error ea => exact ⟨ea, by simp [mapExcept, ha]⟩
    | ok b =>
      have hxl : x ∈ l := by
        rcases List.mem_cons.mp hx with h1 | h1
        · subst h1; rw [ha] at he; exact absurd he (by simp)
        · exact h1
      obtain ⟨e2, he2⟩ := ih hxl
      exact ⟨e2, by simp [mapExcept, ha, he2]⟩

lemma mapExcept_mem_of_ok {α β : Type} {f : α → Except String β} {l : List α}
    {bs : List β} (h : mapExcept f l = .ok bs) :
    ∀ b ∈ bs, ∃ a ∈ l, f a = .ok b := by
  induction l generalizing bs with
  | nil =>
    simp only [mapExcept] at h
    cases h
    simp
  | cons a l ih =>
    simp only [mapExcept] at h
    cases ha : f a with
    | error ea => rw [ha] at h; simp [except_bind_error] at h
    | ok b0 =>
      rw [ha] at h
      cases hl : mapExcept f l with
      | error el =>
        rw [hl] at h
        simp [except_bind_ok, except_bind_error] at h
      | ok bs0 =>
        rw [hl] at h
        simp only [except_bind_ok] at h
        have : b0 :: bs0 = bs := by
          simpa [Except.ok.injEq] using h
        subst this
        intro b hb
        rcases List.mem_cons.mp hb with h1 | h1
        · exact ⟨a, List.mem_cons_self a l, h1 ▸ ha⟩
        · obtain ⟨a2, ha2, hfa2⟩ := ih hl b h1
          exact ⟨a2, List.mem_cons_of_mem a ha2, hfa2⟩

lemma maskFilter_map_eq_filter {α β : Type} (p : β → Bool) :
    ∀ (X : List α) (Y : List β), X.length = Y.length →
      maskFilter (Y.map p) X = ((X.zip Y).filter fun q => p q.2).map Prod.fst
  | [], [], _ => rfl
  | [], b :: Y, h => by simp at h
  | a :: X, [], h => by simp at h
  | a :: X, b :: Y, h => by
    have hlen : X.length = Y.length := by simpa using h
    have ih := maskFilter_map_eq_filter p X Y hlen
    by_cases hb : p b
    · simp [maskFilter, List.filter_cons, hb, ih] at ih ⊢
      simpa [maskFilter] using ih
    · simp only [List.map_cons, maskFilter, List.zip_cons_cons, List.filter_cons] at ih ⊢
      simp [hb, List.filterMap_cons] at ih ⊢
      simpa [maskFilter] using ih

lemma maskFilter_map_self {α : Type} (p : α → Bool) (Y : List α) :
    maskFilter (Y.map p) Y = Y.filter p := by
  induction Y with
  | nil => rfl
  | cons a Y ih =>
    by_cases ha : p a
    · simp only [List.map_cons, maskFilter, List.zip_cons_cons, List.filterMap_cons,
        List.filter_cons, ha, if_pos]
      simpa [maskFilter] using ih
    · simp only [List.map_cons, maskFilter, List.zip_cons_cons, List.filterMap_cons,
        List.filter_cons, ha]
      simpa [maskFilter] using ih

lemma maskFilter_mem {α : Type} {mask : List Bool} {xs : List α} {x : α}
    (h : x ∈ maskFilter mask xs) : x ∈ xs := by
  simp only [maskFilter, List.mem_filterMap] at h
  obtain ⟨⟨b, y⟩, hmem, hy⟩ := h
  have : y = x := by
    by_cases hb : b <;> simp [hb] at hy
    exact hy
  subst this
  exact (List.of_mem_zip hmem).2

lemma foldl_max_le_self (l : List ℚ) (a : ℚ) : a ≤ l.foldl max a := by
  induction l generalizing a with
  | nil => exact le_refl a
  | cons x l ih => exact le_trans (le_max_left a x) (ih (max a x))

lemma foldl_max_le_of_mem {l : List ℚ} {x : ℚ} (h : x ∈ l) (a : ℚ) :
    x ≤ l.foldl max a := by
  induction l generalizing a with
  | nil => simp at h
  | cons y l ih =>
    rcases List.mem_cons.mp h with h1 | h1
    · subst h1
      exact le_trans (le_max_right a x) (foldl_max_le_self l (max a x))
    · exact ih h1 (max a y)

lemma npMax_ok_of_ne_nil {l : List ℚ} (h : l ≠ []) : ∃ m, npMax l = .ok m := by
  cases l with
  | nil => exact absurd rfl h
  | cons x xs => exact ⟨xs.foldl max x, rfl⟩

lemma npMax_is_ub {l : List ℚ} {m : ℚ} (h : npMax l = .ok m) :
    ∀ x ∈ l, x ≤ m := by
  cases l with
  | nil => simp [npMax] at h
  | cons a xs =>
    simp only [npMax] at h
    cases h
    intro x hx
    rcases List.mem_cons.mp hx with h1 | h1
    · exact h1 ▸ foldl_max_le_self xs a
    · exact foldl_max_le_of_mem h1 a

/-- The notebook's guard `any([not cl in classes for cl in classes])` checks
membership of each name in the `classes` list itself, so it is always false. -/
lemma guard_any_false (cs : List String) :
    (cs.any fun cl => !(decide (cl ∈ cs))) = false := by
  simp

lemma insertionSort_pair (i j : ℕ) (h : i ≠ j) :
    List.insertionSort (· ≤ ·) [i, j] = [min i j, max i j] := by
  rcases le_total i j with hij | hij
  · simp [List.insertionSort, List.orderedInsert, hij, min_eq_left hij, max_eq_right hij]
  · have hlt : ¬ i ≤ j := by omega
    simp [List.insertionSort, List.orderedInsert, hlt, min_eq_right hij, max_eq_left hij]

lemma flatten_ne_nil_of_mem {α : Type} {L : List (List α)} {r : List α}
    (hr : r ∈ L) (hne : r ≠ []) : L.flatten ≠ [] := by
  intro hL
  rw [List.flatten_eq_nil_iff] at hL
  exact hne (hL r hr)

lemma getD_zipWith {α : Type} (f : α → α → α) (d : α) :
    ∀ (l1 l2 : List α) (i : Nat), i < l1.length → i < l2.length →
      (List.zipWith f l1 l2).getD i d = f (l1.getD i d) (l2.getD i d)
  | [], _, i, h1, _ => by simp at h1
  | _ :: _, [], i, _, h2 => by simp at h2
  | a :: l1, b :: l2, 0, _, _ => rfl
  | a :: l1, b :: l2, i + 1, h1, h2 => by
    simp only [List.zipWith_cons_cons, List.getD_cons_succ]
    exact getD_zipWith f d l1 l2 i (by simpa using h1) (by simpa using h2)

lemma mem_pair_decide (y i1 i2 : Nat) :
    decide (y ∈ [i1, i2]) = (decide (y = i1) || decide (y = i2)) := by
  by_cases h1 : y = i1 <;> by_cases h2 : y = i2 <;> simp [h1, h2]

lemma relabel_pointwise {i1 i2 y : Nat} (hii : i1 ≠ i2) (hy : y = i1 ∨ y = i2) :
    classPosition [min i1 i2, max i1 i2] y
      = .ok (if y = min i1 i2 then (0 : ℚ) else 1) := by
  have hmm : min i1 i2 ≠ max i1 i2 := by omega
  by_cases hmin : y = min i1 i2
  · subst hmin
    simp [classPosition, tupleIndex_head, Except.map]
  · have hmax : y = max i1 i2 := by omega
    rw [classPosition, if_neg hmin, hmax, tupleIndex_pair_snd hmm]
    rfl

/-- The filtered/normalized/relabeled result of `select_classes_from_cifar10`
on a valid two-class selection, characterized by direct filter/map
expressions. `M` is the maximum pixel value of the *filtered training*
rows. -/
lemma select_two_classes
    (d : RawDataset) (c1 c2 : String) (i1 i2 : Nat) (M : ℚ)
    (hne : c1 ≠ c2)
    (h1 : tupleIndex allowed c1 = .ok i1)
    (h2 : tupleIndex allowed c2 = .ok i2)
    (hT : d.1.1.length = d.1.2.length)
    (hV : d.2.1.length = d.2.2.length)
    (hM : npMax (keptRows d.1.1 d.1.2 i1 i2).flatten = .ok M) :
    select_classes_from_cifar10 d [c1, c2] =
      .ok ((scaleBy M (keptRows d.1.1 d.1.2 i1 i2), relabeled d.1.2 i1 i2),
           (scaleBy M (keptRows d.2.1 d.2.2 i1 i2), relabeled d.2.2 i1 i2)) := by
  have hii : i1 ≠ i2 := fun he => hne (tupleIndex_inj h1 (he ▸ h2))
  have hguard : (([c1, c2].any fun cl => !(decide (cl ∈ [c1, c2])))
      || !(decide (([c1, c2] : List String).length > 1))) = false := by
    simp
  have hc : mapExcept (tupleIndex allowed) [c1, c2] = .ok [i1, i2] := by
    simp [mapExcept, h1, h2]
  have hpred : ∀ (Y : List Nat),
      (Y.map fun y => decide (y ∈ [i1, i2]))
        = Y.map fun y => (decide (y = i1) || decide (y = i2)) :=
    fun Y => List.map_congr_left fun y _ => mem_pair_decide y i1 i2
  have hXT : maskFilter (d.1.2.map fun y => decide (y ∈ [i1, i2])) d.1.1
      = keptRows d.1.1 d.1.2 i1 i2 := by
    rw [hpred, maskFilter_map_eq_filter _ _ _ hT, keptRows]
  have hXV : maskFilter (d.2.2.map fun y => decide (y ∈ [i1, i2])) d.2.1
      = keptRows d.2.1 d.2.2 i1 i2 := by
    rw [hpred, maskFilter_map_eq_filter _ _ _ hV, keptRows]
  have hYT : maskFilter (d.1.2.map fun y => decide (y ∈ [i1, i2])) d.1.2
      = keptLabels d.1.2 i1 i2 := by
    rw [hpred, maskFilter_map_self, keptLabels]
  have hYV : maskFilter (d.2.2.map fun y => decide (y ∈ [i1, i2])) d.2.2
      = keptLabels d.2.2 i1 i2 := by
    rw [hpred, maskFilter_map_self, keptLabels]
  have hsort : List.insertionSort (· ≤ ·) [i1, i2] = [min i1 i2, max i1 i2] :=
    insertionSort_pair i1 i2 hii
  have hrel : ∀ (Y : List Nat),
      mapExcept (classPosition (List.insertionSort (· ≤ ·) [i1, i2]))
        (keptLabels Y i1 i2) = .ok (relabeled Y i1 i2) := by
    intro Y
    rw [hsort, relabeled]
    apply mapExcept_eq_ok
    intro y hy
    apply relabel_pointwise hii
    have hmem := (List.mem_filter.mp hy).2
    simpa using hmem
  unfold select_classes_from_cifar10
  rw [hguard]
  simp only [Bool.false_eq_true, if_false, hc, except_bind_ok]
  simp only [hXT, hXV, hYT, hYV, hrel, except_bind_ok, hM]
  simp [scaleBy]

lemma mapExcept_ok_length {α β : Type} {f : α → Except String β} {l : List α}
    {bs : List β} (h : mapExcept f l = .ok bs) : bs.length = l.length := by
  induction l generalizing bs with
  | nil =>
    simp only [mapExcept] at h
    cases h
    rfl
  | cons a l ih =>
    simp only [mapExcept] at h
    cases ha : f a with
    | error ea => rw [ha] at h; simp at h
    | ok b0 =>
      rw [ha] at h
      cases hl : mapExcept f l with
      | error el => rw [hl] at h; simp at h
      | ok bs0 =>
        rw [hl] at h
        simp only [Except.ok.injEq] at h
        subst h
        simp [ih hl]

lemma maskFilter_lengths {α β : Type} (p : β → Bool) :
    ∀ (X : List α) (Y : List β), X.length = Y.length →
      (maskFilter (Y.map p) X).length = (Y.filter p).length := by
  intro X Y h
  rw [maskFilter_map_eq_filter p X Y h, List.length_map]
  induction X generalizing Y with
  | nil =>
    cases Y with
    | nil => rfl
    | cons b Y => simp at h
  | cons a X ih =>
    cases Y with
    | nil => simp at h
    | cons b Y =>
      have hlen : X.length = Y.length := by simpa using h
      by_cases hb : p b
      · simp [List.filter_cons, hb, ih Y hlen]
      · simp [List.filter_cons, hb, ih Y hlen]

lemma keptRows_subset {X : List (List ℚ)} {Y : List Nat} {i1 i2 : Nat}
    {r : List ℚ} (h : r ∈ keptRows X Y i1 i2) : r ∈ X := by
  simp only [keptRows, List.mem_map] at h
  obtain ⟨q, hq, hfst⟩ := h
  have hz := (List.mem_filter.mp hq).1
  exact hfst ▸ (List.of_mem_zip hz).1

/-! ### The claims -/

/-- C1. For every valid two-class selection, `select_classes_from_cifar10`
returns, in each split, exactly the rows whose original label is one of the
two selected class indices (`keptRows`, a direct filter over the zipped
split), and relabels them so that the smaller original class index maps to 0
and the larger to 1 (`relabeled`); every returned label is 0 or 1. `M` is the
maximum pixel value of the filtered training rows (the returned feature rows
are the kept rows divided by it). -/
theorem claim_C1_two_class_filter
    (d : RawDataset) (c1 c2 : String) (i1 i2 : Nat) (M : ℚ)
    (hne : c1 ≠ c2)
    (h1 : tupleIndex allowed c1 = .ok i1)
    (h2 : tupleIndex allowed c2 = .ok i2)
    (hT : d.1.1.length = d.1.2.length)
    (hV : d.2.1.length = d.2.2.length)
    (hM : npMax (keptRows d.1.1 d.1.2 i1 i2).flatten = .ok M) :
    select_classes_from_cifar10 d [c1, c2] =
      .ok ((scaleBy M (keptRows d.1.1 d.1.2 i1 i2), relabeled d.1.2 i1 i2),
           (scaleBy M (keptRows d.2.1 d.2.2 i1 i2), relabeled d.2.2 i1 i2))
    ∧ (∀ q ∈ relabeled d.1.2 i1 i2, q = 0 ∨ q = 1)
    ∧ (∀ q ∈ relabeled d.2.2 i1 i2, q = 0 ∨ q = 1) := by
  refine ⟨select_two_classes d c1 c2 i1 i2 M hne h1 h2 hT hV hM, ?_, ?_⟩ <;>
  · intro q hq
    simp only [relabeled, List.mem_map] at hq
    obtain ⟨y, _, hy⟩ := hq
    by_cases hmin : y = min i1 i2
    · exact Or.inl (by rw [← hy, if_pos hmin])
    · exact Or.inr (by rw [← hy, if_neg hmin])

/-- Witness for C1 on a concrete dataset: train rows `[[2],[4]]` with labels
`[7, 9]` (horse, truck), validation row `[[6]]` with label `[9]`. -/
theorem claim_C1_witness :
    select_classes_from_cifar10 (([[2], [4]], [7, 9]), ([[6]], [9]))
        ["horse", "truck"] =
      .ok ((scaleBy 4 (keptRows [[2], [4]] [7, 9] 7 9), relabeled [7, 9] 7 9),
           (scaleBy 4 (keptRows [[6]] [9] 7 9), relabeled [9] 7 9))
    ∧ (∀ q ∈ relabeled [7, 9] 7 9, q = 0 ∨ q = 1)
    ∧ (∀ q ∈ relabeled [9] 7 9, q = 0 ∨ q = 1) :=
  claim_C1_two_class_filter (([[2], [4]], [7, 9]), ([[6]], [9])) "horse" "truck"
    7 9 4 (by decide) (by with_unfolding_all rfl) (by with_unfolding_all rfl)
    rfl rfl (by with_unfolding_all rfl)

/-- C2. If the class list has fewer than two names, or a name outside the
fixed 10-class vocabulary, `select_classes_from_cifar10` raises a
`ValueError`; the error is produced before any filtering or normalization, so
the result is identical for every dataset. Conversely, for at least two
names all drawn from the vocabulary the call does not raise (on a dataset
whose splits are aligned, whose training rows are non-empty images, and
whose training labels cover all ten classes — as CIFAR-10's do). -/
theorem claim_C2_invalid_classes_fail_fast (cs : List String) :
    ((cs.length ≤ 1 ∨ ∃ c ∈ cs, c ∉ allowed) →
      ∀ d : RawDataset, ∃ e, select_classes_from_cifar10 d cs = .error e ∧
        ∀ d2 : RawDataset,
          select_classes_from_cifar10 d2 cs = select_classes_from_cifar10 d cs)
    ∧ (1 < cs.length → (∀ c ∈ cs, c ∈ allowed) →
      ∀ d : RawDataset, d.1.1.length = d.1.2.length →
        (∀ r ∈ d.1.1, r ≠ []) → (∀ i, i < 10 → i ∈ d.1.2) →
        ∃ out, select_classes_from_cifar10 d cs = .ok out) := by
  constructor
  · intro hbad d
    by_cases hlen : 1 < cs.length
    · have hc : ∃ c ∈ cs, c ∉ allowed := by
        rcases hbad with h | h
        · omega
        · exact h
      obtain ⟨c, hcm, hcn⟩ := hc
      have hguard : ((cs.any fun cl => !(decide (cl ∈ cs)))
          || !(decide (cs.length > 1))) = false := by
        simp [hlen]
      obtain ⟨e2, he2⟩ := mapExcept_error_of_mem hcm (tupleIndex_error_of_not_mem hcn)
      have hsel : ∀ d2 : RawDataset,
          select_classes_from_cifar10 d2 cs = .error e2 := by
        intro d2
        unfold select_classes_from_cifar10
        rw [hguard]
        simp only [Bool.false_eq_true, if_false, he2, except_bind_error]
      exact ⟨e2, hsel d, fun d2 => (hsel d2).trans (hsel d).symm⟩
    · have hguard : ((cs.any fun cl => !(decide (cl ∈ cs)))
          || !(decide (cs.length > 1))) = true := by
        simp [hlen]
      have hsel : ∀ d2 : RawDataset,
          select_classes_from_cifar10 d2 cs
            = .error "ValueError: Please check your class arguments" := by
        intro d2
        unfold select_classes_from_cifar10
        rw [hguard]
        simp
      exact ⟨_, hsel d, fun d2 => (hsel d2).trans (hsel d).symm⟩
  · intro hlen hall d hT hrows hcls
    have hguard : ((cs.any fun cl => !(decide (cl ∈ cs)))
        || !(decide (cs.length > 1))) = false := by
      simp [hlen]
    obtain ⟨is, his⟩ :=
      mapExcept_ok_exists (fun c hc => tupleIndex_ok_of_mem (hall c hc))
    have hislen : is.length = cs.length := mapExcept_ok_length his
    have hisne : is ≠ [] := by
      intro h
      rw [h] at hislen
      simp at hislen
      omega
    obtain ⟨i0, hi0⟩ := List.exists_mem_of_ne_nil is hisne
    obtain ⟨c0, _, hc0⟩ := mapExcept_mem_of_ok his i0 hi0
    have hi0lt : i0 < 10 := by
      have := tupleIndex_lt_length hc0
      simpa [allowed] using this
    have hi0Y : i0 ∈ d.1.2 := hcls i0 hi0lt
    have hfY : i0 ∈ d.1.2.filter fun y => decide (y ∈ is) := by
      rw [List.mem_filter]
      exact ⟨hi0Y, by simpa using hi0⟩
    have hfXlen : (maskFilter (d.1.2.map fun y => decide (y ∈ is)) d.1.1).length
        = (d.1.2.filter fun y => decide (y ∈ is)).length :=
      maskFilter_lengths _ d.1.1 d.1.2 hT
    have hfXne : maskFilter (d.1.2.map fun y => decide (y ∈ is)) d.1.1 ≠ [] := by
      intro h
      rw [h] at hfXlen
      have := List.ne_nil_of_mem hfY
      simp only [List.length_nil] at hfXlen
      exact this (List.eq_nil_of_length_eq_zero hfXlen.symm)
    obtain ⟨r, hr⟩ := List.exists_mem_of_ne_nil _ hfXne
    have hrne : r ≠ [] := hrows r (maskFilter_mem hr)
    have hfl : (maskFilter (d.1.2.map fun y => decide (y ∈ is)) d.1.1).flatten
        ≠ [] := flatten_ne_nil_of_mem hr hrne
    obtain ⟨m, hm⟩ := npMax_ok_of_ne_nil hfl
    have hmemsort : ∀ y : Nat, y ∈ is →
        y ∈ List.insertionSort (· ≤ ·) is := by
      intro y hy
      exact ((List.perm_insertionSort (· ≤ ·) is).mem_iff).mpr hy
    have hlabels : ∀ (Y : List Nat), ∃ out,
        mapExcept (classPosition (List.insertionSort (· ≤ ·) is))
          (maskFilter (Y.map fun y => decide (y ∈ is)) Y) = .ok out := by
      intro Y
      apply mapExcept_ok_exists
      intro y hy
      rw [maskFilter_map_self] at hy
      have hyis : y ∈ is := by simpa using (List.mem_filter.mp hy).2
      obtain ⟨j, hj⟩ := tupleIndex_ok_of_mem (hmemsort y hyis)
      exact ⟨(j : ℚ), by rw [classPosition, hj]; rfl⟩
    obtain ⟨YT, hYT⟩ := hlabels d.1.2
    obtain ⟨YV, hYV⟩ := hlabels d.2.2
    refine ⟨(((maskFilter (d.1.2.map fun y => decide (y ∈ is)) d.1.1).map
          (fun row => row.map (· / m)), YT),
        ((maskFilter (d.2.2.map fun y => decide (y ∈ is)) d.2.1).map
          (fun row => row.map (· / m)), YV)), ?_⟩
    unfold select_classes_from_cifar10
    rw [hguard]
    simp only [Bool.false_eq_true, if_false, his, except_bind_ok, hYT, hYV, hm]

/-- Witness for C2: a one-name list fails identically on every dataset, and a
valid two-name list succeeds on a dataset whose training labels cover all ten
classes. -/
theorem claim_C2_witness :
    (∃ e, select_classes_from_cifar10 (([[1]], [7]), ([[2]], [9])) ["horse"]
        = .error e ∧
      ∀ d2 : RawDataset, select_classes_from_cifar10 d2 ["horse"]
        = select_classes_from_cifar10 (([[1]], [7]), ([[2]], [9])) ["horse"]) ∧
    (∃ out, select_classes_from_cifar10
        (([[1], [1], [1], [1], [1], [1], [1], [1], [1], [1]],
          [0, 1, 2, 3, 4, 5, 6, 7, 8, 9]), ([[1]], [0]))
        ["horse", "truck"] = .ok out) :=
  ⟨(claim_C2_invalid_classes_fail_fast ["horse"]).1 (Or.inl (by decide))
      (([[1]], [7]), ([[2]], [9])),
    (claim_C2_invalid_classes_fail_fast ["horse", "truck"]).2 (by decide)
      (by decide)
      (([[1], [1], [1], [1], [1], [1], [1], [1], [1], [1]],
        [0, 1, 2, 3, 4, 5, 6, 7, 8, 9]), ([[1]], [0]))
      rfl (by decide) (by decide)⟩

/-- C3. For every valid two-class selection, both returned feature matrices
are the filtered rows of their split divided by the *same* scalar `M`: the
maximum pixel value of the filtered training rows (`npMax` of the training
`keptRows`), not each split's own maximum. -/
theorem claim_C3_train_max_both_splits
    (d : RawDataset) (c1 c2 : String) (i1 i2 : Nat)
    (hne : c1 ≠ c2)
    (h1 : tupleIndex allowed c1 = .ok i1)
    (h2 : tupleIndex allowed c2 = .ok i2)
    (hT : d.1.1.length = d.1.2.length)
    (hV : d.2.1.length = d.2.2.length)
    (hflat : (keptRows d.1.1 d.1.2 i1 i2).flatten ≠ []) :
    ∃ M, npMax (keptRows d.1.1 d.1.2 i1 i2).flatten = .ok M ∧
      select_classes_from_cifar10 d [c1, c2] =
        .ok ((scaleBy M (keptRows d.1.1 d.1.2 i1 i2), relabeled d.1.2 i1 i2),
             (scaleBy M (keptRows d.2.1 d.2.2 i1 i2), relabeled d.2.2 i1 i2)) := by
  obtain ⟨M, hM⟩ := npMax_ok_of_ne_nil hflat
  exact ⟨M, hM, select_two_classes d c1 c2 i1 i2 M hne h1 h2 hT hV hM⟩

/-- Witness for C3 on the same concrete dataset as the C1 witness. -/
theorem claim_C3_witness :
    ∃ M, npMax (keptRows [[2], [4]] [7, 9] 7 9).flatten = .ok M ∧
      select_classes_from_cifar10 (([[2], [4]], [7, 9]), ([[6]], [9]))
          ["horse", "truck"] =
        .ok ((scaleBy M (keptRows [[2], [4]] [7, 9] 7 9), relabeled [7, 9] 7 9),
             (scaleBy M (keptRows [[6]] [9] 7 9), relabeled [9] 7 9)) :=
  claim_C3_train_max_both_splits (([[2], [4]], [7, 9]), ([[6]], [9]))
    "horse" "truck" 7 9 (by decide) (by with_unfolding_all rfl)
    (by with_unfolding_all rfl) rfl rfl (by with_unfolding_all decide)

/-- C4 as stated is false: with the valid selection `["horse","truck"]`, all
pixels non-negative and the training maximum positive (it is 1), the
validation row `[[2]]` is divided by the *training* maximum 1, so the
returned validation entry is 2, outside `[0,1]`. -/
theorem claim_C4_counterexample :
    (∀ row ∈ ([[1]] : List (List ℚ)), ∀ v ∈ row, 0 ≤ v) ∧
    (∀ row ∈ ([[2]] : List (List ℚ)), ∀ v ∈ row, 0 ≤ v) ∧
    npMax (keptRows [[1]] [7] 7 9).flatten = .ok 1 ∧ (0 : ℚ) < 1 ∧
    select_classes_from_cifar10 (([[1]], [7]), ([[2]], [9])) ["horse", "truck"]
      = .ok (([[1]], [0]), ([[2]], [1])) ∧
    ¬ ((2 : ℚ) ≤ 1) := by
  refine ⟨by decide, by decide, by with_unfolding_all rfl, by decide,
    by with_unfolding_all rfl, by decide⟩

/-- C4, amended as the counterexample forces: under non-negative pixels and a
positive training maximum `M`, every entry of the returned *training* matrix
lies in `[0,1]`; the entries of the returned *validation* matrix lie in
`[0,1]` provided every validation pixel is at most `M`. -/
theorem claim_C4_unit_interval_amended
    (d : RawDataset) (c1 c2 : String) (i1 i2 : Nat) (M : ℚ)
    (hne : c1 ≠ c2)
    (h1 : tupleIndex allowed c1 = .ok i1)
    (h2 : tupleIndex allowed c2 = .ok i2)
    (hT : d.1.1.length = d.1.2.length)
    (hV : d.2.1.length = d.2.2.length)
    (hM : npMax (keptRows d.1.1 d.1.2 i1 i2).flatten = .ok M)
    (hpos : 0 < M)
    (hnnT : ∀ row ∈ d.1.1, ∀ v ∈ row, 0 ≤ v)
    (hnnV : ∀ row ∈ d.2.1, ∀ v ∈ row, 0 ≤ v) :
    select_classes_from_cifar10 d [c1, c2] =
      .ok ((scaleBy M (keptRows d.1.1 d.1.2 i1 i2), relabeled d.1.2 i1 i2),
           (scaleBy M (keptRows d.2.1 d.2.2 i1 i2), relabeled d.2.2 i1 i2))
    ∧ (∀ row ∈ scaleBy M (keptRows d.1.1 d.1.2 i1 i2), ∀ v ∈ row,
        0 ≤ v ∧ v ≤ 1)
    ∧ ((∀ row ∈ d.2.1, ∀ v ∈ row, v ≤ M) →
        ∀ row ∈ scaleBy M (keptRows d.2.1 d.2.2 i1 i2), ∀ v ∈ row,
          0 ≤ v ∧ v ≤ 1) := by
  refine ⟨select_two_classes d c1 c2 i1 i2 M hne h1 h2 hT hV hM, ?_, ?_⟩
  · intro row hrow v hv
    simp only [scaleBy, List.mem_map] at hrow
    obtain ⟨r, hr, hrmap⟩ := hrow
    subst hrmap
    simp only [List.mem_map] at hv
    obtain ⟨x, hx, hxv⟩ := hv
    subst hxv
    have h0 : 0 ≤ x := hnnT r (keptRows_subset hr) x hx
    have hub : x ≤ M := npMax_is_ub hM x (List.mem_flatten.mpr ⟨r, hr, hx⟩)
    exact ⟨div_nonneg h0 (le_of_lt hpos), (div_le_one hpos).mpr hub⟩
  · intro hbound row hrow v hv
    simp only [scaleBy, List.mem_map] at hrow
    obtain ⟨r, hr, hrmap⟩ := hrow
    subst hrmap
    simp only [List.mem_map] at hv
    obtain ⟨x, hx, hxv⟩ := hv
    subst hxv
    have hrv : r ∈ d.2.1 := keptRows_subset hr
    have h0 : 0 ≤ x := hnnV r hrv x hx
    have hub : x ≤ M := hbound r hrv x hx
    exact ⟨div_nonneg h0 (le_of_lt hpos), (div_le_one hpos).mpr hub⟩

/-- Witness for the amended C4 on the concrete dataset of the C1 witness
(training maximum 4). -/
theorem claim_C4_witness :
    select_classes_from_cifar10 (([[2], [4]], [7, 9]), ([[6]], [9]))
        ["horse", "truck"] =
      .ok ((scaleBy 4 (keptRows [[2], [4]] [7, 9] 7 9), relabeled [7, 9] 7 9),
           (scaleBy 4 (keptRows [[6]] [9] 7 9), relabeled [9] 7 9))
    ∧ (∀ row ∈ scaleBy 4 (keptRows [[2], [4]] [7, 9] 7 9), ∀ v ∈ row,
        0 ≤ v ∧ v ≤ 1)
    ∧ ((∀ row ∈ ([[6]] : List (List ℚ)), ∀ v ∈ row, v ≤ 4) →
        ∀ row ∈ scaleBy 4 (keptRows [[6]] [9] 7 9), ∀ v ∈ row,
          0 ≤ v ∧ v ≤ 1) :=
  claim_C4_unit_interval_amended (([[2], [4]], [7, 9]), ([[6]], [9]))
    "horse" "truck" 7 9 4 (by decide) (by with_unfolding_all rfl)
    (by with_unfolding_all rfl) rfl rfl (by with_unfolding_all rfl)
    (by decide) (by decide) (by decide)

/-- C10. The guard accepts a duplicated class name: on
`classes = ["horse", "horse"]` the filter does not raise; with training rows
`[[2],[4]]` labelled `[7,3]` (horse, cat) and a validation row `[[6]]`
labelled `[7]`, it keeps only the horse examples and maps every returned
label to 0 — a degenerate one-class dataset. -/
theorem claim_C10_duplicate_classes :
    select_classes_from_cifar10 (([[2], [4]], [7, 3]), ([[6]], [7]))
        ["horse", "horse"] = .ok (([[1]], [0]), ([[3]], [0])) := by
  with_unfolding_all rfl

/-- C5. For every input vector, weight vector of the same length and bias,
the model output `sigmoid(dot(x, w) + b)` is strictly between 0 and 1 (over
the reals, which is how the float computation is idealized here). -/
theorem claim_C5_output_open_interval (x w : List ℝ) (b : ℝ)
    (hlen : x.length = w.length) :
    0 < modelOutput x w b ∧ modelOutput x w b < 1 := by
  unfold modelOutput sigmoid
  set z := dotProduct x w + b
  have hexp : 0 < Real.exp (-z) := Real.exp_pos (-z)
  have hden : 0 < 1 + Real.exp (-z) := by linarith
  constructor
  · exact one_div_pos.mpr hden
  · rw [div_lt_one hden]
    linarith

/-- Witness for C5 at `x = [0]`, `w = [0]`, `b = 0`. -/
theorem claim_C5_witness :
    0 < modelOutput [0] [0] 0 ∧ modelOutput [0] [0] 0 < 1 :=
  claim_C5_output_open_interval [0] [0] 0 rfl

lemma bce_nonneg {p t : ℝ} (hp : 0 < p ∧ p < 1) (ht : t = 0 ∨ t = 1) :
    0 ≤ binary_crossentropy p t := by
  rcases ht with h | h <;> subst h <;> unfold binary_crossentropy
  · have hlog : Real.log (1 - p) ≤ 0 :=
      Real.log_nonpos (by linarith [hp.2]) (by linarith [hp.1])
    simp only [zero_mul, sub_zero, one_mul, zero_add]
    linarith
  · have hlog : Real.log p ≤ 0 := Real.log_nonpos (le_of_lt hp.1) (le_of_lt hp.2)
    simp only [one_mul, sub_self, zero_mul, add_zero]
    linarith

lemma bce_at_one (p : ℝ) : binary_crossentropy p 1 = -Real.log p := by
  unfold binary_crossentropy
  ring_nf

lemma bce_at_zero (p : ℝ) : binary_crossentropy p 0 = -Real.log (1 - p) := by
  unfold binary_crossentropy
  ring_nf

lemma neg_log_tendsto_zero_left :
    Filter.Tendsto (fun p : ℝ => -Real.log p) (nhdsWithin 1 (Set.Iio 1))
      (nhds 0) := by
  have hc : ContinuousAt (fun p : ℝ => -Real.log p) 1 :=
    (Real.continuousAt_log one_ne_zero).neg
  have h0 := hc.tendsto
  rw [Real.log_one, neg_zero] at h0
  exact h0.mono_left nhdsWithin_le_nhds

lemma neg_log_tendsto_atTop_right :
    Filter.Tendsto (fun p : ℝ => -Real.log p) (nhdsWithin 0 (Set.Ioi 0))
      Filter.atTop := by
  have hlog : Filter.Tendsto Real.log (nhdsWithin 0 (Set.Ioi 0)) Filter.atBot :=
    Real.tendsto_log_nhdsWithin_zero.mono_left
      (nhdsWithin_mono 0 fun x hx =>
        Set.mem_compl_singleton_iff.mpr (ne_of_gt hx))
  exact Filter.tendsto_neg_atTop_iff.mpr hlog

lemma one_sub_tendsto_right_of_left :
    Filter.Tendsto (fun p : ℝ => 1 - p) (nhdsWithin 1 (Set.Iio 1))
      (nhdsWithin 0 (Set.Ioi 0)) := by
  rw [tendsto_nhdsWithin_iff]
  constructor
  · have hc : Filter.Tendsto (fun p : ℝ => 1 - p) (nhds 1) (nhds (1 - 1)) :=
      ((continuous_const.sub continuous_id).tendsto 1)
    rw [sub_self] at hc
    exact hc.mono_left nhdsWithin_le_nhds
  · filter_upwards [eventually_mem_nhdsWithin] with p hp
    exact Set.mem_Ioi.mpr (sub_pos.mpr hp)

lemma one_sub_tendsto_left_of_right :
    Filter.Tendsto (fun p : ℝ => 1 - p) (nhdsWithin 0 (Set.Ioi 0))
      (nhdsWithin 1 (Set.Iio 1)) := by
  rw [tendsto_nhdsWithin_iff]
  constructor
  · have hc : Filter.Tendsto (fun p : ℝ => 1 - p) (nhds 0) (nhds (1 - 0)) :=
      ((continuous_const.sub continuous_id).tendsto 0)
    rw [sub_zero] at hc
    exact hc.mono_left nhdsWithin_le_nhds
  · filter_upwards [eventually_mem_nhdsWithin] with p hp
    exact Set.mem_Iio.mpr (by linarith [Set.mem_Ioi.mp hp])

/-- C6. The batch loss is the arithmetic mean of the per-example binary
cross-entropies and is non-negative for predictions in `(0,1)` and targets in
`{0,1}`; the per-example loss tends to 0 as the prediction tends to its
target (from inside `(0,1)`) and grows without bound as it tends to the
opposite of its target. -/
theorem claim_C6_bce_mean_nonneg_limits (preds targets : List ℝ)
    (hlen : preds.length = targets.length)
    (hp : ∀ p ∈ preds, 0 < p ∧ p < 1)
    (ht : ∀ t ∈ targets, t = 0 ∨ t = 1) :
    lossBCE preds targets =
        ((preds.zip targets).map fun q => binary_crossentropy q.1 q.2).sum
          / preds.length
    ∧ 0 ≤ lossBCE preds targets
    ∧ Filter.Tendsto (fun p => binary_crossentropy p 1)
        (nhdsWithin 1 (Set.Iio 1)) (nhds 0)
    ∧ Filter.Tendsto (fun p => binary_crossentropy p 0)
        (nhdsWithin 0 (Set.Ioi 0)) (nhds 0)
    ∧ Filter.Tendsto (fun p => binary_crossentropy p 1)
        (nhdsWithin 0 (Set.Ioi 0)) Filter.atTop
    ∧ Filter.Tendsto (fun p => binary_crossentropy p 0)
        (nhdsWithin 1 (Set.Iio 1)) Filter.atTop := by
  have hmean : lossBCE preds targets =
      ((preds.zip targets).map fun q => binary_crossentropy q.1 q.2).sum
        / preds.length := by
    unfold lossBCE kMean
    rw [List.length_map, List.length_zip, hlen, min_self]
  refine ⟨hmean, ?_, ?_, ?_, ?_, ?_⟩
  · rw [hmean]
    apply div_nonneg _ (Nat.cast_nonneg preds.length)
    apply List.sum_nonneg
    intro a ha
    simp only [List.mem_map] at ha
    obtain ⟨q, hq, hqa⟩ := ha
    subst hqa
    exact bce_nonneg (hp q.1 (List.of_mem_zip hq).1) (ht q.2 (List.of_mem_zip hq).2)
  · exact Filter.Tendsto.congr (fun p => (bce_at_one p).symm)
      neg_log_tendsto_zero_left
  · refine Filter.Tendsto.congr (fun p => (bce_at_zero p).symm) ?_
    have := neg_log_tendsto_zero_left.comp one_sub_tendsto_left_of_right
    simpa [Function.comp] using this
  · exact Filter.Tendsto.congr (fun p => (bce_at_one p).symm)
      neg_log_tendsto_atTop_right
  · refine Filter.Tendsto.congr (fun p => (bce_at_zero p).symm) ?_
    exact neg_log_tendsto_atTop_right.comp one_sub_tendsto_right_of_left

/-- Witness for C6 at the one-example batch `preds = [1/2]`,
`targets = [1]`. -/
theorem claim_C6_witness :
    lossBCE [1/2] [1] =
        (([1/2] : List ℝ).zip [1] |>.map fun q =>
          binary_crossentropy q.1 q.2).sum / ([1/2] : List ℝ).length
    ∧ 0 ≤ lossBCE [1/2] [1]
    ∧ Filter.Tendsto (fun p => binary_crossentropy p 1)
        (nhdsWithin 1 (Set.Iio 1)) (nhds 0)
    ∧ Filter.Tendsto (fun p => binary_crossentropy p 0)
        (nhdsWithin 0 (Set.Ioi 0)) (nhds 0)
    ∧ Filter.Tendsto (fun p => binary_crossentropy p 1)
        (nhdsWithin 0 (Set.Ioi 0)) Filter.atTop
    ∧ Filter.Tendsto (fun p => binary_crossentropy p 0)
        (nhdsWithin 1 (Set.Iio 1)) Filter.atTop :=
  claim_C6_bce_mean_nonneg_limits [1/2] [1] rfl
    (List.forall_mem_singleton.mpr ⟨one_half_pos, one_half_lt_one⟩)
    (List.forall_mem_singleton.mpr (Or.inr rfl))

/-- C7. One training step replaces the parameters by exactly
`w - lr * grad_w` (componentwise) and `b - lr * grad_b`, and nothing else:
`Params` consists of exactly `w` and `b`, and both components of the result
are fully determined by the equations below, so the update is deterministic
in its inputs. -/
theorem claim_C7_update_rule (p : Params) (g : Grads) (lr : ℝ)
    (hlen : p.w.length = g.gw.length) :
    (applyUpdates lr g p).b = p.b - lr * g.gb
    ∧ (applyUpdates lr g p).w.length = p.w.length
    ∧ ∀ i, i < p.w.length →
        (applyUpdates lr g p).w.getD i 0 = p.w.getD i 0 - lr * g.gw.getD i 0 := by
  refine ⟨rfl, ?_, ?_⟩
  · simp [applyUpdates, hlen]
  · intro i hi
    exact getD_zipWith (fun wi gi => wi - lr * gi) 0 p.w g.gw i hi (hlen ▸ hi)

/-- Witness for C7 at `w = [1]`, `b = 2`, gradients `[3]` and `4`,
`lr = 5`. -/
theorem claim_C7_witness :
    (applyUpdates 5 ⟨[3], 4⟩ ⟨[1], 2⟩).b = (2 : ℝ) - 5 * 4
    ∧ (applyUpdates 5 ⟨[3], 4⟩ ⟨[1], 2⟩).w.length = ([(1 : ℝ)]).length
    ∧ ∀ i, i < ([(1 : ℝ)]).length →
        (applyUpdates 5 ⟨[3], 4⟩ ⟨[1], 2⟩).w.getD i 0 =
          ([(1 : ℝ)]).getD i 0 - 5 * ([(3 : ℝ)]).getD i 0 :=
  claim_C7_update_rule ⟨[1], 2⟩ ⟨[3], 4⟩ 5 rfl

/-- C8. Within an epoch, evaluating the validation loss (`compute_loss`, a
compiled function with no update list) leaves the parameters unchanged, and
the parameters after the epoch are exactly those produced by the single
`train` call on the training batch (one `applyUpdates` application at the
pre-epoch parameters). -/
theorem claim_C8_validation_no_update (G : GradProvider) (lr : ℝ)
    (trainBatch valBatch : Batch) (st : TrainState) :
    (∀ (q : Params) (bt : Batch), (compute_loss q bt).1 = q)
    ∧ (epochStep G lr trainBatch valBatch st).params =
        (trainStep G lr st.params trainBatch).1
    ∧ (trainStep G lr st.params trainBatch).1 =
        applyUpdates lr (G st.params trainBatch) st.params := by
  exact ⟨fun q bt => rfl, rfl, rfl⟩

lemma trainingLoop_add (G : GradProvider) (lr : ℝ) (tB vB : Batch) :
    ∀ (a b : Nat) (st : TrainState),
      trainingLoop G lr tB vB (a + b) st =
        trainingLoop G lr tB vB b (trainingLoop G lr tB vB a st) := by
  intro a
  induction a with
  | zero => intro b st; rw [Nat.zero_add]; rfl
  | succ a ih =>
    intro b st
    have : a + 1 + b = (a + b) + 1 := by omega
    rw [this]
    show trainingLoop G lr tB vB (a + b) (epochStep G lr tB vB st) = _
    rw [ih b (epochStep G lr tB vB st)]
    rfl

lemma trainingLoop_hist_lengths (G : GradProvider) (lr : ℝ) (tB vB : Batch) :
    ∀ (n : Nat) (st : TrainState),
      (trainingLoop G lr tB vB n st).train_loss_history.length =
        st.train_loss_history.length + n
      ∧ (trainingLoop G lr tB vB n st).val_loss_history.length =
        st.val_loss_history.length + n := by
  intro n
  induction n with
  | zero => intro st; exact ⟨rfl, rfl⟩
  | succ n ih =>
    intro st
    have h := ih (epochStep G lr tB vB st)
    constructor
    · show (trainingLoop G lr tB vB n (epochStep G lr tB vB st)).train_loss_history.length = _
      rw [h.1]
      simp [epochStep]
      omega
    · show (trainingLoop G lr tB vB n (epochStep G lr tB vB st)).val_loss_history.length = _
      rw [h.2]
      simp [epochStep]
      omega

lemma trainingLoop_hist_append (G : GradProvider) (lr : ℝ) (tB vB : Batch) :
    ∀ (n : Nat) (st : TrainState),
      (∃ t, (trainingLoop G lr tB vB n st).train_loss_history =
        st.train_loss_history ++ t)
      ∧ (∃ v, (trainingLoop G lr tB vB n st).val_loss_history =
        st.val_loss_history ++ v) := by
  intro n
  induction n with
  | zero => intro st; exact ⟨⟨[], by simp [trainingLoop]⟩, ⟨[], by simp [trainingLoop]⟩⟩
  | succ n ih =>
    intro st
    obtain ⟨⟨t, ht⟩, ⟨v, hv⟩⟩ := ih (epochStep G lr tB vB st)
    constructor
    · refine ⟨[(trainStep G lr st.params tB).2] ++ t, ?_⟩
      show (trainingLoop G lr tB vB n (epochStep G lr tB vB st)).train_loss_history = _
      rw [ht]
      simp [epochStep]
    · refine ⟨[(compute_loss (trainStep G lr st.params tB).1 vB).2] ++ v, ?_⟩
      show (trainingLoop G lr tB vB n (epochStep G lr tB vB st)).val_loss_history = _
      rw [hv]
      simp [epochStep]

/-- C9. Starting from empty histories, running the loop for `n` epochs
produces histories of length exactly `n` (one entry per epoch, so the loop
runs exactly `nb_epochs` epochs and stops); after any earlier epoch count
`e ≤ n` the histories are prefixes of the final ones — entries are only ever
appended, never modified or removed. -/
theorem claim_C9_epoch_histories (G : GradProvider) (lr : ℝ)
    (tB vB : Batch) (p0 : Params) (n e : Nat) (he : e ≤ n) :
    (trainingLoop G lr tB vB n (initialState p0)).train_loss_history.length = n
    ∧ (trainingLoop G lr tB vB n (initialState p0)).val_loss_history.length = n
    ∧ (trainingLoop G lr tB vB e (initialState p0)).train_loss_history.length = e
    ∧ (trainingLoop G lr tB vB e (initialState p0)).val_loss_history.length = e
    ∧ (∃ t, (trainingLoop G lr tB vB n (initialState p0)).train_loss_history =
        (trainingLoop G lr tB vB e (initialState p0)).train_loss_history ++ t)
    ∧ (∃ v, (trainingLoop G lr tB vB n (initialState p0)).val_loss_history =
        (trainingLoop G lr tB vB e (initialState p0)).val_loss_history ++ v) := by
  have hn := trainingLoop_hist_lengths G lr tB vB n (initialState p0)
  have heh := trainingLoop_hist_lengths G lr tB vB e (initialState p0)
  obtain ⟨k, hk⟩ := Nat.exists_eq_add_of_le he
  have hsplit := trainingLoop_add G lr tB vB e k (initialState p0)
  have happ := trainingLoop_hist_append G lr tB vB k
    (trainingLoop G lr tB vB e (initialState p0))
  refine ⟨?_, ?_, ?_, ?_, ?_, ?_⟩
  · simpa [initialState] using hn.1
  · simpa [initialState] using hn.2
  · simpa [initialState] using heh.1
  · simpa [initialState] using heh.2
  · obtain ⟨t, ht⟩ := happ.1
    exact ⟨t, by rw [hk, hsplit]; exact ht⟩
  · obtain ⟨v, hv⟩ := happ.2
    exact ⟨v, by rw [hk, hsplit]; exact hv⟩

/-- Witness for C9 with a trivial gradient provider, `n = 2` epochs and the
intermediate count `e = 1`. -/
theorem claim_C9_witness :
    (trainingLoop (fun _ _ => ⟨[], 0⟩) 0 ⟨[], []⟩ ⟨[], []⟩ 2
        (initialState ⟨[], 0⟩)).train_loss_history.length = 2
    ∧ (trainingLoop (fun _ _ => ⟨[], 0⟩) 0 ⟨[], []⟩ ⟨[], []⟩ 2
        (initialState ⟨[], 0⟩)).val_loss_history.length = 2
    ∧ (trainingLoop (fun _ _ => ⟨[], 0⟩) 0 ⟨[], []⟩ ⟨[], []⟩ 1
        (initialState ⟨[], 0⟩)).train_loss_history.length = 1
    ∧ (trainingLoop (fun _ _ => ⟨[], 0⟩) 0 ⟨[], []⟩ ⟨[], []⟩ 1
        (initialState ⟨[], 0⟩)).val_loss_history.length = 1
    ∧ (∃ t, (trainingLoop (fun _ _ => ⟨[], 0⟩) 0 ⟨[], []⟩ ⟨[], []⟩ 2
        (initialState ⟨[], 0⟩)).train_loss_history =
        (trainingLoop (fun _ _ => ⟨[], 0⟩) 0 ⟨[], []⟩ ⟨[], []⟩ 1
          (initialState ⟨[], 0⟩)).train_loss_history ++ t)
    ∧ (∃ v, (trainingLoop (fun _ _ => ⟨[], 0⟩) 0 ⟨[], []⟩ ⟨[], []⟩ 2
        (initialState ⟨[], 0⟩)).val_loss_history =
        (trainingLoop (fun _ _ => ⟨[], 0⟩) 0 ⟨[], []⟩ ⟨[], []⟩ 1
          (initialState ⟨[], 0⟩)).val_loss_history ++ v) :=
  claim_C9_epoch_histories (fun _ _ => ⟨[], 0⟩) 0 ⟨[], []⟩ ⟨[], []⟩ ⟨[], 0⟩ 2 1
    (by decide)

end Perceptron
